import Mathlib

/-!
Verification of the image-search engine of this repository against its
natural-language specification.

The Python source (Image Search/image_search.py and Image Search/main.py) is
shallowly embedded below: the engine state is a structure, Python dicts keyed
by strings are insertion-ordered association lists, the floating-point
similarity scores are modelled exactly over the rationals, and the CLIP
encoder together with PIL image decoding is an abstract black box supplied as
a parameter, following the specification's external-collaborator boundary
(spec section 6): the abstract encoder returns the already L2-normalised
embedding, because the source normalises immediately after every encode call.
A Python call that raises is modelled by an Option or Except value.
-/

namespace ImageSearch

/-- File paths are strings. -/
abbrev Path := String

/-- Embedding vectors: dense vectors of (rational-valued) floats. -/
abbrev Vec := List ℚ

/-- Dot product of two vectors.  For the unit-norm vectors produced by the
engine's normalisation step (features divided by features.norm()) this is
exactly torch.cosine_similarity, as the spec notes: both vectors are already
unit-norm, so cosine similarity reduces to the dot product. -/
def dot (a b : Vec) : ℚ := (List.zipWith (· * ·) a b).sum

/-- Insert x into a list that is sorted by non-increasing key, placing x
immediately before the first element whose key is at most the key of x.
Together with the foldr in sortByDesc this reproduces Python's stable
descending sort: an element inserted by foldr precedes, in the original list,
every element of the already-sorted suffix, so putting it in front of
equal-key elements preserves the original relative order of ties. -/
def insertByDesc {α : Type} (key : α → ℚ) (x : α) : List α → List α
  | [] => [x]
  | y :: ys => if key y ≤ key x then x :: y :: ys else y :: insertByDesc key x ys

/-- Stable sort into non-increasing key order, modelling Python's
sorted(items, key=..., reverse=True). -/
def sortByDesc {α : Type} (key : α → ℚ) (l : List α) : List α :=
  l.foldr (insertByDesc key) []

theorem perm_insertByDesc {α : Type} (key : α → ℚ) (x : α) (l : List α) :
    List.Perm (insertByDesc key x l) (x :: l) := by
  induction l with
  | nil => exact List.Perm.refl _
  | cons y ys ih =>
    simp only [insertByDesc]
    split
    · exact List.Perm.refl _
    · exact (ih.cons y).trans (List.Perm.swap x y ys)

theorem perm_sortByDesc {α : Type} (key : α → ℚ) (l : List α) :
    List.Perm (sortByDesc key l) l := by
  induction l with
  | nil => exact List.Perm.refl _
  | cons x xs ih => exact (perm_insertByDesc key x (sortByDesc key xs)).trans (ih.cons x)

theorem mem_sortByDesc {α : Type} {key : α → ℚ} {l : List α} {x : α} :
    x ∈ sortByDesc key l ↔ x ∈ l :=
  (perm_sortByDesc key l).mem_iff

theorem sorted_insertByDesc {α : Type} (key : α → ℚ) (x : α) :
    ∀ l : List α, l.Pairwise (fun a b => key b ≤ key a) →
      (insertByDesc key x l).Pairwise (fun a b => key b ≤ key a)
  | [], _ => by simp [insertByDesc]
  | y :: ys, h => by
    rw [List.pairwise_cons] at h
    by_cases hxy : key y ≤ key x
    · simp only [insertByDesc, if_pos hxy]
      refine List.Pairwise.cons ?_ (List.pairwise_cons.mpr h)
      intro z hz
      rcases List.mem_cons.mp hz with rfl | hz
      · exact hxy
      · exact le_trans (h.1 z hz) hxy
    · simp only [insertByDesc, if_neg hxy]
      refine List.Pairwise.cons ?_ (sorted_insertByDesc key x ys h.2)
      intro z hz
      rcases List.mem_cons.mp ((perm_insertByDesc key x ys).mem_iff.mp hz) with rfl | hz
      · exact le_of_not_le hxy
      · exact h.1 z hz

theorem sorted_sortByDesc {α : Type} (key : α → ℚ) (l : List α) :
    (sortByDesc key l).Pairwise (fun a b => key b ≤ key a) := by
  induction l with
  | nil => simp [sortByDesc]
  | cons x xs ih => exact sorted_insertByDesc key x (sortByDesc key xs) ih

/-- The mutable state of the Python class ImageSearchEngine: the dict
image_features mapping each indexed file path to its embedding vector
(insertion-ordered), the indexed folder path image_dir (None initially), and
the user-set similarity threshold. -/
structure ImageSearchEngine where
  image_features : List (Path × Vec)
  image_dir : Option Path
  user_similarity_threshold : ℚ
deriving DecidableEq

/-- Embedding of ImageSearchEngine._calculate_similarities: compute the
cosine similarity of the query vector with every indexed vector (dict
iteration is insertion order), retain the entries whose score is at least the
user-set threshold, and sort by descending score.  The is_text_search flag of
the source has no effect on the returned value and is omitted. -/
def calculate_similarities (e : ImageSearchEngine) (query_features : Vec) :
    List (Path × ℚ) :=
  let similarities := e.image_features.map (fun pf => (pf.1, dot query_features pf.2))
  let filtered := similarities.filter (fun kv => e.user_similarity_threshold ≤ kv.2)
  sortByDesc Prod.snd filtered

/-- Black-box boundary for PIL decoding plus the CLIP model (spec section 6).
decode is Image.open(path).convert("RGB") plus preprocessing; none models the
decode raising.  encode_image and encode_text return the L2-normalised
embedding; none models a model/runtime failure (a raise).  Img is the
abstract type of decoded images. -/
structure Encoder (Img : Type) where
  decode : Path → Option Img
  encode_image : Img → Option Vec
  encode_text : String → Option Vec

/-- Embedding of ImageSearchEngine.search_by_image: decode and encode the
query image (failures re-raise, modelled as Except.error carrying the query
path), then delegate to calculate_similarities. -/
def search_by_image {Img : Type} (enc : Encoder Img) (e : ImageSearchEngine)
    (query_image_path : Path) : Except Path (List (Path × ℚ)) :=
  match enc.decode query_image_path with
  | none => .error query_image_path
  | some img =>
    match enc.encode_image img with
    | none => .error query_image_path
    | some q => .ok (calculate_similarities e q)

/-- Embedding of ImageSearchEngine.search_by_text: encode the query text
(failure re-raises), then delegate to calculate_similarities. -/
def search_by_text {Img : Type} (enc : Encoder Img) (e : ImageSearchEngine)
    (query_text : String) : Except Path (List (Path × ℚ)) :=
  match enc.encode_text query_text with
  | none => .error query_text
  | some q => .ok (calculate_similarities e q)

/-- Lookup in a result list seen as a dict, modelling dict(results).get(path)
after dict() keeps the last occurrence of a key; result lists built by the
engine have distinct paths, for which find? agrees with the Python dict. -/
def lookupScore (results : List (Path × ℚ)) (p : Path) : Option ℚ :=
  (results.find? (fun kv => kv.1 == p)).map Prod.snd

/-- Key set of set(image_results) | set(text_results) in search_hybrid.
Python iterates this union in unspecified hash order; the embedding fixes
first-seen order.  The per-path combined scores, which the claims are about,
do not depend on the iteration order. -/
def hybrid_keys (image_results text_results : List (Path × ℚ)) : List Path :=
  image_results.map Prod.fst ++
    (text_results.map Prod.fst).filter
      (fun p => !((image_results.map Prod.fst).contains p))

/-- Score given to one path of the union by the loop body of search_hybrid:
image_score and text_score default to 0 via dict.get; a path found in both
single-mode dicts gets the mean of its two scores boosted by the factor
1.5 = 3/2; any other path gets the mean of its one score and 0. -/
def combined_score (image_results text_results : List (Path × ℚ)) (path : Path) : ℚ :=
  let image_score := (lookupScore image_results path).getD 0
  let text_score := (lookupScore text_results path).getD 0
  if (lookupScore image_results path).isSome ∧ (lookupScore text_results path).isSome then
    (image_score + text_score) / 2 * (3 / 2)
  else
    (image_score + text_score) / 2

/-- The combined_results dict of search_hybrid, before the combined-score
filter: every path of the union of the two key sets, with its combined
score. -/
def combined_results (image_results text_results : List (Path × ℚ)) :
    List (Path × ℚ) :=
  (hybrid_keys image_results text_results).map
    (fun path => (path, combined_score image_results text_results path))

/-- The fixed minimum combined score 0.3 of search_hybrid. -/
def min_combined_score : ℚ := 3 / 10

/-- Embedding of ImageSearchEngine.search_hybrid: run both single-mode
searches (their errors re-raise), combine the scores per path, filter by the
fixed minimum combined score, and sort by descending score. -/
def search_hybrid {Img : Type} (enc : Encoder Img) (e : ImageSearchEngine)
    (query_image_path : Path) (query_text : String) :
    Except Path (List (Path × ℚ)) :=
  match search_by_image enc e query_image_path with
  | .error err => .error err
  | .ok image_results =>
    match search_by_text enc e query_text with
    | .error err => .error err
    | .ok text_results =>
      .ok (sortByDesc Prod.snd
        ((combined_results image_results text_results).filter
          (fun kv => min_combined_score ≤ kv.2)))

/-- Embedding of ImageSearchEngine.get_indexed_images:
list(self.image_features.keys()). -/
def get_indexed_images (e : ImageSearchEngine) : List Path :=
  e.image_features.map Prod.fst

/-- Python dict assignment d[k] = v: overwrite in place if the key is
present (keeping its position in insertion order), append otherwise. -/
def dictInsert {β : Type} (m : List (Path × β)) (k : Path) (v : β) :
    List (Path × β) :=
  if m.any (fun kv => kv.1 == k) then
    m.map (fun kv => if kv.1 == k then (k, v) else kv)
  else
    m ++ [(k, v)]

/-- Successive dict assignments for a list of key-value pairs. -/
def insertAll {β : Type} (m : List (Path × β)) (l : List (Path × β)) :
    List (Path × β) :=
  l.foldl (fun acc kv => dictInsert acc kv.1 kv.2) m

/-- Embedding of the supported-extension test
filename.lower().endswith((".png", ".jpg", ".jpeg", ".gif")): case folding
and the suffix test are spelled out over the character list so the function
computes by kernel reduction. -/
def supported_image (filename : String) : Bool :=
  let lower := filename.data.map Char.toLower
  ".png".data.isSuffixOf lower || ".jpg".data.isSuffixOf lower ||
    ".jpeg".data.isSuffixOf lower || ".gif".data.isSuffixOf lower

/-- Embedding of ImageSearchEngine.index_single_image: ignore paths without a
supported extension; decode and encode the file inside a try block whose
except clause only prints, so any failure leaves the engine unchanged; on
success store the normalised vector under the original path.  The Lean
function is total: the Python method never lets an exception escape. -/
def index_single_image {Img : Type} (enc : Encoder Img) (e : ImageSearchEngine)
    (image_path : Path) : ImageSearchEngine :=
  if supported_image image_path then
    match enc.decode image_path with
    | none => e
    | some img =>
      match enc.encode_image img with
      | none => e
      | some v => { e with image_features := dictInsert e.image_features image_path v }
  else
    e

/-- The decoded images of one batch: the source appends preprocess(image) for
every path whose Image.open succeeds. -/
def decoded_images {Img : Type} (enc : Encoder Img) (image_paths : List Path) :
    List Img :=
  image_paths.filterMap enc.decode

/-- The valid_paths list of index_batch: the paths whose decode succeeded, in
order. -/
def valid_paths {Img : Type} (enc : Encoder Img) (image_paths : List Path) :
    List Path :=
  image_paths.filter (fun p => (enc.decode p).isSome)

/-- The warnings printed by the decode loop of index_batch: one per path
whose decode raised, recorded here as the failing path itself. -/
def decode_warnings {Img : Type} (enc : Encoder Img) (image_paths : List Path) :
    List Path :=
  image_paths.filter (fun p => (enc.decode p).isNone)

/-- Embedding of ImageSearchEngine.index_batch: decode every path, skipping
failures with a warning; with no valid image return early; otherwise encode
the whole stack (a model failure raises out of the method, modelled as none),
normalise, and store each vector under its path by zipping valid_paths with
the returned rows.  The second component collects the decode warnings. -/
def index_batch {Img : Type} (enc : Encoder Img) (e : ImageSearchEngine)
    (image_paths : List Path) : Option (ImageSearchEngine × List Path) :=
  let images := decoded_images enc image_paths
  if images.isEmpty then
    some (e, decode_warnings enc image_paths)
  else
    match images.mapM enc.encode_image with
    | none => none
    | some feats =>
      some ({ e with
                image_features :=
                  insertAll e.image_features ((valid_paths enc image_paths).zip feats) },
            decode_warnings enc image_paths)

/-- Batch loop of ImageSearchEngine.index_images: process 32 paths at a time;
an encode failure raises out of the loop (none); decode warnings accumulate
across batches.  The progress callback only reports a fraction to the UI and
is not modelled. -/
def index_images_go {Img : Type} (enc : Encoder Img) (e : ImageSearchEngine)
    (warnings : List Path) (image_paths : List Path) :
    Option (ImageSearchEngine × List Path) :=
  if image_paths.isEmpty then
    some (e, warnings)
  else
    match index_batch enc e (image_paths.take 32) with
    | none => none
    | some (e2, w) => index_images_go enc e2 (warnings ++ w) (image_paths.drop 32)
termination_by image_paths.length
decreasing_by
  simp only [List.length_drop]
  rcases image_paths with _ | ⟨a, l⟩
  · simp at *
  · simp
    omega

/-- Embedding of ImageSearchEngine.index_images: the folder walk is the
filesystem boundary and is abstracted to the list of files it yields; the
engine filters them to the supported extensions and indexes them in batches
of 32. -/
def index_images {Img : Type} (enc : Encoder Img) (e : ImageSearchEngine)
    (folder_files : List Path) : Option (ImageSearchEngine × List Path) :=
  index_images_go enc e [] (folder_files.filter supported_image)

/-- Values of the persisted JSON cache: each key maps either to an embedding
(an array of floats) or, for the reserved key, to the folder path string (or
null). -/
inductive CacheEntry where
  | vec (v : Vec)
  | dir (d : Option Path)
deriving DecidableEq

/-- The persisted snapshot: a JSON object, modelled as an insertion-ordered
association list. -/
abbrev CacheData := List (Path × CacheEntry)

/-- Lookup of a key in cache data, modelling the dict. -/
def cache_lookup (d : CacheData) (k : Path) : Option CacheEntry :=
  (d.find? (fun kv => kv.1 == k)).map Prod.snd

/-- Python del d[k]: remove the binding of k. -/
def dictErase (d : CacheData) (k : Path) : CacheData :=
  d.filter (fun kv => !(kv.1 == k))

/-- Embedding of ImageSearchEngine.get_cache: dump every feature vector via
tolist() keyed by its path, then assign the reserved key folder_path to the
indexed folder (overwriting any record that used that literal key). -/
def get_cache (e : ImageSearchEngine) : CacheData :=
  dictInsert (e.image_features.map (fun pf => (pf.1, CacheEntry.vec pf.2)))
    "folder_path" (CacheEntry.dir e.image_dir)

/-- The folder-path value read by load_cache.  A crafted cache can bind the
reserved key to an array, in which case Python stores that non-string object
in self.image_dir; the state type collapses that unreachable type confusion
to none.  No claim depends on it: get_cache always writes a dir entry. -/
def entryDir : CacheEntry → Option Path
  | .vec _ => none
  | .dir d => d

/-- First half of ImageSearchEngine.load_cache: if the reserved key is bound,
store its value as the folder path and delete the binding.  This mutation
happens before the feature dict is rebuilt, so it survives a later failure. -/
def load_cache_step1 (e : ImageSearchEngine) (cache_data : CacheData) :
    ImageSearchEngine × CacheData :=
  match cache_lookup cache_data "folder_path" with
  | some ent => ({ e with image_dir := entryDir ent }, dictErase cache_data "folder_path")
  | none => (e, cache_data)

/-- Second half of ImageSearchEngine.load_cache: rebuild the feature dict by
applying torch.tensor to every remaining value; torch.tensor raises on a
value that is not an array of numbers (none). -/
def vecsOf : CacheData → Option (List (Path × Vec))
  | [] => some []
  | (k, .vec v) :: rest => (vecsOf rest).map (fun r => (k, v) :: r)
  | (_, .dir _) :: _ => none

/-- Embedding of ImageSearchEngine.load_cache.  none models the method
raising (caught by the caller in main.py). -/
def load_cache (e : ImageSearchEngine) (cache_data : CacheData) :
    Option ImageSearchEngine :=
  let p := load_cache_step1 e cache_data
  (vecsOf p.2).map (fun feats => { p.1 with image_features := feats })

/-- The three search modes selected by the UI switches in main.py. -/
inductive SearchType where
  | image
  | text
  | hybrid
deriving DecidableEq

/-- Embedding of ImageSearchApp.perform_search: when a threshold override is
given, the engine threshold is set to it for the duration of the call and
restored in the finally block, so the search runs against the overridden
engine and the caller's engine state is unchanged either way. -/
def perform_search {Img : Type} (enc : Encoder Img) (e : ImageSearchEngine)
    (search_type : SearchType) (sample_image_path : Path) (query_text : String)
    (threshold : Option ℚ) : Except Path (List (Path × ℚ)) :=
  let e2 := match threshold with
    | some t => { e with user_similarity_threshold := t }
    | none => e
  match search_type with
  | .image => search_by_image enc e2 sample_image_path
  | .text => search_by_text enc e2 query_text
  | .hybrid => search_hybrid enc e2 sample_image_path query_text

/-- Embedding of ImageSearchApp.adjust_threshold_and_search: rerun the query
with threshold 0; with at least 5 results, take the fifth highest score,
set the new threshold to max(0, that score - 0.01), and report the results
filtered by the new threshold together with the new threshold; with fewer
than 5 results report them all with threshold 0.  An exception of the rerun
propagates (Except.error).  The updates of the slider state in the first
branch are UI state and are not modelled. -/
def adjust_threshold_and_search {Img : Type} (enc : Encoder Img)
    (e : ImageSearchEngine) (search_type : SearchType) (sample_image_path : Path)
    (query_text : String) : Except Path (List (Path × ℚ) × ℚ) :=
  match perform_search enc e search_type sample_image_path query_text (some 0) with
  | .error err => .error err
  | .ok all_results =>
    if 5 ≤ all_results.length then
      let fifth_highest_score := (sortByDesc id (all_results.map Prod.snd)).getD 4 0
      let new_threshold := max 0 (fifth_highest_score - 1 / 100)
      .ok (all_results.filter (fun r => new_threshold ≤ r.2), new_threshold)
    else
      .ok (all_results, 0)

/-- State of the persisted cache file as seen by ImageSearchApp.load_cache:
absent, present but rejected by json.load, or parsed into cache data. -/
inductive CacheFile where
  | missing
  | unparseable
  | parsed (d : CacheData)

/-- Embedding of ImageSearchApp.load_cache: a missing file does nothing; a
json.JSONDecodeError or any exception of the engine load prints a warning
(recorded here) and resets image_features to the empty dict; the method
never lets an exception escape (the Lean function is total). -/
def app_load_cache (e : ImageSearchEngine) (file : CacheFile) :
    ImageSearchEngine × List String :=
  match file with
  | .missing => (e, [])
  | .unparseable =>
    ({ e with image_features := [] }, ["Error decoding cache file. Starting with empty cache."])
  | .parsed d =>
    match load_cache e d with
    | some e2 => (e2, [])
    | none =>
      ({ (load_cache_step1 e d).1 with image_features := [] },
        ["Error loading cache. Starting with empty cache."])

/-- State-passing form of search_by_image: the translation threads the engine
through the method, which reads self but writes no field. -/
def search_by_imageS {Img : Type} (enc : Encoder Img) (e : ImageSearchEngine)
    (query_image_path : Path) :
    Except Path (List (Path × ℚ)) × ImageSearchEngine :=
  (search_by_image enc e query_image_path, e)

/-- State-passing form of search_by_text. -/
def search_by_textS {Img : Type} (enc : Encoder Img) (e : ImageSearchEngine)
    (query_text : String) :
    Except Path (List (Path × ℚ)) × ImageSearchEngine :=
  (search_by_text enc e query_text, e)

/-- State-passing form of search_hybrid: the two inner searches are threaded
in the order the source calls them, and an inner error propagates with the
state reached at that point. -/
def search_hybridS {Img : Type} (enc : Encoder Img) (e : ImageSearchEngine)
    (query_image_path : Path) (query_text : String) :
    Except Path (List (Path × ℚ)) × ImageSearchEngine :=
  match search_by_imageS enc e query_image_path with
  | (.error err, e1) => (.error err, e1)
  | (.ok image_results, e1) =>
    match search_by_textS enc e1 query_text with
    | (.error err, e2) => (.error err, e2)
    | (.ok text_results, e2) =>
      (.ok (sortByDesc Prod.snd
        ((combined_results image_results text_results).filter
          (fun kv => min_combined_score ≤ kv.2))), e2)

/-- State-passing form of get_indexed_images. -/
def get_indexed_imagesS (e : ImageSearchEngine) :
    List Path × ImageSearchEngine :=
  (get_indexed_images e, e)

/-- Lookup fails exactly when the path is not among the keys. -/
theorem lookupScore_eq_none {r : List (Path × ℚ)} {p : Path} :
    lookupScore r p = none ↔ p ∉ r.map Prod.fst := by
  unfold lookupScore
  rw [Option.map_eq_none']
  rw [List.find?_eq_none]
  simp only [beq_iff_eq, List.mem_map, not_exists, Prod.forall, Prod.exists]
  aesop

/-- Lookup succeeds exactly when the path is among the keys. -/
theorem lookupScore_isSome {r : List (Path × ℚ)} {p : Path} :
    (lookupScore r p).isSome = true ↔ p ∈ r.map Prod.fst := by
  rw [Option.isSome_iff_ne_none, ne_eq, lookupScore_eq_none, not_not]

/-- find? over a graph of a function finds the value at the first occurrence
of the key; since every occurrence carries the same value, membership
suffices. -/
theorem find?_map_key (f : Path → ℚ) :
    ∀ (l : List Path) (p : Path), p ∈ l →
      (l.map (fun k => (k, f k))).find? (fun kv => kv.1 == p) = some (p, f p)
  | k :: l, p, h => by
    by_cases hk : k = p
    · subst hk
      simp [List.find?_cons_of_pos]
    · have hp : p ∈ l := by
        rcases List.mem_cons.mp h with h1 | h1
        · exact absurd h1.symm hk
        · exact h1
      rw [List.map_cons, List.find?_cons_of_neg, find?_map_key f l p hp]
      simp [hk]

/-- Looking up any path of the union in the combined dict yields its combined
score. -/
theorem lookup_combined_results (ir tr : List (Path × ℚ)) (p : Path)
    (h : p ∈ hybrid_keys ir tr) :
    lookupScore (combined_results ir tr) p = some (combined_score ir tr p) := by
  unfold lookupScore combined_results
  rw [find?_map_key (combined_score ir tr) _ p h]
  rfl

/-- A key of the image results belongs to the union. -/
theorem mem_hybrid_keys_left {ir tr : List (Path × ℚ)} {p : Path}
    (h : p ∈ ir.map Prod.fst) : p ∈ hybrid_keys ir tr :=
  List.mem_append_left _ h

/-- A key of only the text results belongs to the union. -/
theorem mem_hybrid_keys_right {ir tr : List (Path × ℚ)} {p : Path}
    (h : p ∈ tr.map Prod.fst) (h2 : p ∉ ir.map Prod.fst) :
    p ∈ hybrid_keys ir tr := by
  apply List.mem_append_right
  rw [List.mem_filter]
  refine ⟨h, ?_⟩
  simpa using h2

/-- C1 (amended): in hybrid search, a path that appears in exactly one of the
two single-mode result sets is assigned, before the combined-score filter,
half of that single mode's score: the arithmetic mean of that score and the
default 0 that dict.get supplies for the missing mode. -/
theorem hybrid_single_mode_score_halved
    (image_results text_results : List (Path × ℚ)) (p : Path) (s : ℚ) :
    (lookupScore image_results p = some s → lookupScore text_results p = none →
      lookupScore (combined_results image_results text_results) p = some (s / 2)) ∧
    (lookupScore image_results p = none → lookupScore text_results p = some s →
      lookupScore (combined_results image_results text_results) p = some (s / 2)) := by
  constructor
  · intro hi ht
    have hp : p ∈ hybrid_keys image_results text_results :=
      mem_hybrid_keys_left (lookupScore_isSome.mp (by simp [hi]))
    rw [lookup_combined_results _ _ _ hp]
    simp [combined_score, hi, ht]
  · intro hi ht
    have hp : p ∈ hybrid_keys image_results text_results :=
      mem_hybrid_keys_right (lookupScore_isSome.mp (by simp [ht]))
        (lookupScore_eq_none.mp hi)
    rw [lookup_combined_results _ _ _ hp]
    simp [combined_score, hi, ht]

/-- Fresh engine state: empty feature dict, no folder, threshold 0 (the
constructor's default). -/
def E0 : ImageSearchEngine := ⟨[], none, 0⟩

/-- Engine with one indexed image of unit-norm vector [1]. -/
def E1 : ImageSearchEngine := ⟨[("a", [1])], none, 0⟩

/-- Encoder whose image query encodes to [4/5] and text query to [-1]. -/
def enc1 : Encoder Unit :=
  ⟨fun _ => some (), fun _ => some [4 / 5], fun _ => some [-1]⟩

/-- C1 counterexample: with one indexed image scoring 0.8 in the image search
and absent from the text search, the candidate score before the combined
filter is 0.4, not the claimed 0.8. -/
theorem hybrid_single_mode_score_counterexample :
    search_by_image enc1 E1 "q.png" = Except.ok [("a", 4 / 5)] ∧
    search_by_text enc1 E1 "cat" = Except.ok [] ∧
    lookupScore (combined_results [("a", 4 / 5)] []) "a" = some (2 / 5) ∧
    (2 : ℚ) / 5 ≠ 4 / 5 := by
  refine ⟨?_, ?_, ?_, by norm_num⟩
  · norm_num [search_by_image, enc1, E1, calculate_similarities, dot,
      sortByDesc, insertByDesc]
  · norm_num [search_by_text, enc1, E1, calculate_similarities, dot,
      sortByDesc, insertByDesc]
  · norm_num [lookupScore, combined_results, combined_score, hybrid_keys,
      List.find?]

/-- C1 witness: the amended theorem applied to the concrete single-mode
result sets of the counterexample engine. -/
theorem hybrid_single_mode_score_halved_witness :
    lookupScore (combined_results [("a", 4 / 5)] []) "a" = some (4 / 5 / 2) :=
  (hybrid_single_mode_score_halved [("a", 4 / 5)] [] "a" (4 / 5)).1
    (by simp [lookupScore, List.find?]) rfl

/-- C2 (confirmed): in hybrid search, a path present in both single-mode
result sets gets the arithmetic mean of the two scores multiplied by 1.5,
with no cap applied. -/
theorem hybrid_both_modes_boosted_mean
    (image_results text_results : List (Path × ℚ)) (p : Path) (si st : ℚ)
    (hi : lookupScore image_results p = some si)
    (ht : lookupScore text_results p = some st) :
    lookupScore (combined_results image_results text_results) p =
      some ((si + st) / 2 * (3 / 2)) := by
  have hp : p ∈ hybrid_keys image_results text_results :=
    mem_hybrid_keys_left (lookupScore_isSome.mp (by simp [hi]))
  rw [lookup_combined_results _ _ _ hp]
  simp [combined_score, hi, ht]

/-- Engine with one indexed image of unit-norm vector [1, 0]. -/
def E2 : ImageSearchEngine := ⟨[("a", [1, 0])], none, 0⟩

/-- Encoder whose image query encodes to the unit vector [4/5, 3/5] and text
query to the unit vector [3/5, 4/5], giving similarities 0.8 and 0.6 against
the vector [1, 0]. -/
def enc2 : Encoder Unit :=
  ⟨fun _ => some (), fun _ => some [4 / 5, 3 / 5], fun _ => some [3 / 5, 4 / 5]⟩

/-- C2 witness: image score 0.8 and text score 0.6 combine to 1.05, and the
full hybrid search returns that uncapped score above 1. -/
theorem hybrid_both_modes_boosted_mean_witness :
    lookupScore (combined_results [("a", 4 / 5)] [("a", 3 / 5)]) "a" =
      some (21 / 20) ∧
    search_hybrid enc2 E2 "q.png" "cat" = Except.ok [("a", 21 / 20)] ∧
    (1 : ℚ) < 21 / 20 := by
  refine ⟨?_, ?_, by norm_num⟩
  · have h := hybrid_both_modes_boosted_mean [("a", 4 / 5)] [("a", 3 / 5)] "a"
      (4 / 5) (3 / 5) (by simp [lookupScore, List.find?])
      (by simp [lookupScore, List.find?])
    rw [h]
    norm_num
  · norm_num [search_hybrid, search_by_image, search_by_text, enc2, E2,
      calculate_similarities, combined_results, combined_score, hybrid_keys,
      lookupScore, min_combined_score, dot, sortByDesc, insertByDesc,
      List.find?]

/-- Membership in the filtered, sorted similarity list is exactly: an indexed
record whose similarity with the query clears the threshold. -/
theorem mem_calculate_similarities (e : ImageSearchEngine) (q : Vec) (p : Path) (s : ℚ) :
    (p, s) ∈ calculate_similarities e q ↔
      ∃ v, (p, v) ∈ e.image_features ∧ s = dot q v ∧
        e.user_similarity_threshold ≤ s := by
  unfold calculate_similarities
  rw [mem_sortByDesc, List.mem_filter]
  simp only [List.mem_map]
  constructor
  · rintro ⟨⟨⟨p2, v⟩, hv, heq⟩, hge⟩
    rw [Prod.mk.injEq] at heq
    obtain ⟨rfl, rfl⟩ := heq
    exact ⟨v, hv, rfl, by simpa using hge⟩
  · rintro ⟨v, hv, rfl, hge⟩
    exact ⟨⟨(p, v), hv, rfl⟩, by simpa using hge⟩

/-- The similarity list is sorted by non-increasing score. -/
theorem sorted_calculate_similarities (e : ImageSearchEngine) (q : Vec) :
    (calculate_similarities e q).Pairwise (fun a b => b.2 ≤ a.2) :=
  sorted_sortByDesc Prod.snd _

/-- C3 (confirmed): whenever the query encodes successfully, search_by_image
and search_by_text return exactly the (path, score) pairs of indexed records
whose cosine similarity with the normalised query vector reaches the
engine's threshold, sorted in non-increasing score order. -/
theorem search_results_exact_filter_sorted {Img : Type} (enc : Encoder Img)
    (e : ImageSearchEngine) :
    (∀ ip img q res, enc.decode ip = some img → enc.encode_image img = some q →
      search_by_image enc e ip = Except.ok res →
      ((∀ p s, (p, s) ∈ res ↔ ∃ v, (p, v) ∈ e.image_features ∧ s = dot q v ∧
          e.user_similarity_threshold ≤ s) ∧
        res.Pairwise (fun a b => b.2 ≤ a.2))) ∧
    (∀ t q res, enc.encode_text t = some q →
      search_by_text enc e t = Except.ok res →
      ((∀ p s, (p, s) ∈ res ↔ ∃ v, (p, v) ∈ e.image_features ∧ s = dot q v ∧
          e.user_similarity_threshold ≤ s) ∧
        res.Pairwise (fun a b => b.2 ≤ a.2))) := by
  constructor
  · intro ip img q res hdec henc hok
    unfold search_by_image at hok
    rw [hdec] at hok
    simp only [henc, Except.ok.injEq] at hok
    subst hok
    exact ⟨fun p s => mem_calculate_similarities e q p s,
      sorted_calculate_similarities e q⟩
  · intro t q res henc hok
    unfold search_by_text at hok
    simp only [henc, Except.ok.injEq] at hok
    subst hok
    exact ⟨fun p s => mem_calculate_similarities e q p s,
      sorted_calculate_similarities e q⟩

/-- C3 witness: the theorem applied to a concrete engine and encoder. -/
theorem search_results_exact_filter_sorted_witness :
    ∃ res, search_by_image enc1 E1 "q.png" = Except.ok res ∧
      res.Pairwise (fun a b => b.2 ≤ a.2) ∧ ("a", (4 : ℚ) / 5) ∈ res := by
  refine ⟨calculate_similarities E1 [4 / 5], rfl, ?_, ?_⟩
  · exact ((search_results_exact_filter_sorted enc1 E1).1 "q.png" () [4 / 5] _
      rfl rfl rfl).2
  · exact (((search_results_exact_filter_sorted enc1 E1).1 "q.png" () [4 / 5] _
      rfl rfl rfl).1 "a" (4 / 5)).mpr ⟨[1], by norm_num [E1], by norm_num [dot], by norm_num [E1]⟩

/-- C9 (confirmed): every search operation, successful or raising, leaves
the engine state unchanged: the feature dict, folder path and threshold
after the call are the values before it. -/
theorem search_operations_frame {Img : Type} (enc : Encoder Img)
    (e : ImageSearchEngine) (query_image_path : Path) (query_text : String) :
    (search_by_imageS enc e query_image_path).2 = e ∧
    (search_by_textS enc e query_text).2 = e ∧
    (search_hybridS enc e query_image_path query_text).2 = e ∧
    (get_indexed_imagesS e).2 = e := by
  refine ⟨rfl, rfl, ?_, rfl⟩
  unfold search_hybridS search_by_imageS search_by_textS
  cases search_by_image enc e query_image_path with
  | error err => rfl
  | ok ir =>
    cases henc : enc.encode_text query_text with
    | none => simp [search_by_text, henc]
    | some q => simp [search_by_text, henc]

/-- C10 (confirmed): index_single_image never raises and is atomic: an
unsupported extension, a decode failure or an encode failure each leave the
index unchanged, and the record is stored exactly when decode and encode
both succeed. -/
theorem index_single_image_atomic {Img : Type} (enc : Encoder Img)
    (e : ImageSearchEngine) (p : Path) :
    (supported_image p = false → index_single_image enc e p = e) ∧
    (enc.decode p = none → index_single_image enc e p = e) ∧
    (∀ img, enc.decode p = some img → enc.encode_image img = none →
      index_single_image enc e p = e) ∧
    (∀ img v, supported_image p = true → enc.decode p = some img →
      enc.encode_image img = some v →
      index_single_image enc e p =
        { e with image_features := dictInsert e.image_features p v }) := by
  refine ⟨?_, ?_, ?_, ?_⟩
  · intro h
    simp [index_single_image, h]
  · intro h
    by_cases hs : supported_image p
    · simp [index_single_image, hs, h]
    · simp [index_single_image, hs]
  · intro img h1 h2
    by_cases hs : supported_image p
    · simp [index_single_image, hs, h1, h2]
    · simp [index_single_image, hs]
  · intro img v hs h1 h2
    simp [index_single_image, hs, h1, h2]

/-- Encoder used for the indexing witnesses: the file bad.png fails to
decode, every other file decodes and encodes to the vector [1]. -/
def encIdx : Encoder Unit :=
  ⟨fun p => if p == "bad.png" then none else some (),
    fun _ => some [1], fun _ => some [1]⟩

/-- C10 witness: the atomicity theorem at concrete inputs: indexing a good
file stores its vector, and an unsupported or undecodable path is a no-op. -/
theorem index_single_image_atomic_witness :
    index_single_image encIdx E0 "a.png" =
      { E0 with image_features := dictInsert E0.image_features "a.png" [1] } ∧
    index_single_image encIdx E0 "notes.txt" = E0 ∧
    index_single_image encIdx E0 "bad.png" = E0 := by
  refine ⟨(index_single_image_atomic encIdx E0 "a.png").2.2.2 () [1]
      (by decide) (by decide) rfl,
    (index_single_image_atomic encIdx E0 "notes.txt").1 (by decide),
    (index_single_image_atomic encIdx E0 "bad.png").2.1 (by decide)⟩

/-- C8 (confirmed): loading the persisted cache with the file missing leaves
the fresh engine with its empty index and raises no error; loading with the
file present but not parseable as the expected structure (rejected by
json.load, or making the engine load raise) yields an empty index plus a
recorded warning; the loader is a total function, never a fatal crash. -/
theorem cache_load_degrades_gracefully (e : ImageSearchEngine)
    (h : e.image_features = []) (d : CacheData) (hd : load_cache e d = none) :
    app_load_cache e CacheFile.missing = (e, []) ∧
    (app_load_cache e CacheFile.missing).1.image_features = [] ∧
    (app_load_cache e CacheFile.unparseable).1.image_features = [] ∧
    (app_load_cache e CacheFile.unparseable).2 ≠ [] ∧
    (app_load_cache e (CacheFile.parsed d)).1.image_features = [] ∧
    (app_load_cache e (CacheFile.parsed d)).2 ≠ [] := by
  refine ⟨rfl, by simpa [app_load_cache] using h, rfl, by simp [app_load_cache], ?_, ?_⟩
  · simp [app_load_cache, hd]
  · simp [app_load_cache, hd]

/-- C8 witness: the theorem at a fresh engine and a cache whose only value is
a string, on which the feature rebuild raises. -/
theorem cache_load_degrades_gracefully_witness :
    app_load_cache E0 CacheFile.missing = (E0, []) ∧
    (app_load_cache E0 (CacheFile.parsed [("x", CacheEntry.dir none)])).1.image_features = [] :=
  ⟨(cache_load_degrades_gracefully E0 rfl [("x", CacheEntry.dir none)] rfl).1,
    (cache_load_degrades_gracefully E0 rfl [("x", CacheEntry.dir none)] rfl).2.2.2.2.1⟩

/-- A successful search_by_image returns the similarity list of some query
vector. -/
theorem search_by_image_ok {Img : Type} {enc : Encoder Img}
    {e : ImageSearchEngine} {p : Path} {res : List (Path × ℚ)}
    (h : search_by_image enc e p = Except.ok res) :
    ∃ q, res = calculate_similarities e q := by
  unfold search_by_image at h
  cases hd : enc.decode p with
  | none => rw [hd] at h; exact Except.noConfusion h
  | some img =>
    rw [hd] at h
    cases he : enc.encode_image img with
    | none =>
      simp only [he] at h
      exact Except.noConfusion h
    | some q =>
      simp only [he, Except.ok.injEq] at h
      exact ⟨q, h.symm⟩

/-- A successful search_by_text returns the similarity list of some query
vector. -/
theorem search_by_text_ok {Img : Type} {enc : Encoder Img}
    {e : ImageSearchEngine} {t : String} {res : List (Path × ℚ)}
    (h : search_by_text enc e t = Except.ok res) :
    ∃ q, res = calculate_similarities e q := by
  unfold search_by_text at h
  cases he : enc.encode_text t with
  | none => rw [he] at h; exact Except.noConfusion h
  | some q =>
    simp only [he, Except.ok.injEq] at h
    exact ⟨q, h.symm⟩

/-- A successful search_hybrid returns the filtered, sorted combination of
two single-mode result lists. -/
theorem search_hybrid_ok {Img : Type} {enc : Encoder Img}
    {e : ImageSearchEngine} {p : Path} {t : String} {res : List (Path × ℚ)}
    (h : search_hybrid enc e p t = Except.ok res) :
    ∃ ir tr, res = sortByDesc Prod.snd
      ((combined_results ir tr).filter (fun kv => min_combined_score ≤ kv.2)) := by
  unfold search_hybrid at h
  cases hi : search_by_image enc e p with
  | error err => rw [hi] at h; exact Except.noConfusion h
  | ok ir =>
    rw [hi] at h
    cases ht : search_by_text enc e t with
    | error err =>
      simp only [ht] at h
      exact Except.noConfusion h
    | ok tr =>
      simp only [ht, Except.ok.injEq] at h
      exact ⟨ir, tr, h.symm⟩

/-- Every score of a threshold-0 rerun is non-negative: the single-mode
searches filter at the overridden threshold 0, and the hybrid search filters
at the fixed combined threshold 0.3. -/
theorem perform_search_zero_nonneg {Img : Type} (enc : Encoder Img)
    (e : ImageSearchEngine) (st : SearchType) (sp : Path) (qt : String)
    (all : List (Path × ℚ))
    (h : perform_search enc e st sp qt (some 0) = Except.ok all) :
    ∀ p s, (p, s) ∈ all → 0 ≤ s := by
  intro p s hmem
  cases st with
  | image =>
    replace h : search_by_image enc { e with user_similarity_threshold := 0 } sp =
        Except.ok all := h
    obtain ⟨q, rfl⟩ := search_by_image_ok h
    obtain ⟨v, _, _, hle⟩ := (mem_calculate_similarities _ q p s).mp hmem
    exact hle
  | text =>
    replace h : search_by_text enc { e with user_similarity_threshold := 0 } qt =
        Except.ok all := h
    obtain ⟨q, rfl⟩ := search_by_text_ok h
    obtain ⟨v, _, _, hle⟩ := (mem_calculate_similarities _ q p s).mp hmem
    exact hle
  | hybrid =>
    replace h : search_hybrid enc { e with user_similarity_threshold := 0 } sp qt =
        Except.ok all := h
    obtain ⟨ir, tr, rfl⟩ := search_hybrid_ok h
    rw [mem_sortByDesc, List.mem_filter] at hmem
    have h2 : min_combined_score ≤ s := by simpa using hmem.2
    have h3 : (0 : ℚ) ≤ min_combined_score := by norm_num [min_combined_score]
    linarith

/-- In a list sorted by non-increasing value, at least i + 1 entries reach
any bound that the entry at index i reaches. -/
theorem countP_ge_of_sorted_desc (c : ℚ) :
    ∀ (t : List ℚ), t.Pairwise (fun a b => b ≤ a) →
      ∀ i (h : i < t.length), c ≤ t.get ⟨i, h⟩ →
        i + 1 ≤ t.countP (fun s => decide (c ≤ s))
  | x :: rest, _, 0, _, hc => by
    rw [List.countP_cons]
    have hx : (decide (c ≤ x) : Bool) = true := by
      simpa using hc
    rw [hx]
    simp
  | x :: rest, hp, i + 1, h, hc => by
    rw [List.pairwise_cons] at hp
    have hlen : i < rest.length := by simpa using h
    have hc2 : c ≤ rest.get ⟨i, hlen⟩ := hc
    have ih := countP_ge_of_sorted_desc c rest hp.2 i hlen hc2
    rw [List.countP_cons]
    have hmem : rest.get ⟨i, hlen⟩ ∈ rest := List.get_mem rest i hlen
    have hx : (decide (c ≤ x) : Bool) = true := by
      simp only [decide_eq_true_eq]
      exact le_trans hc2 (hp.1 _ hmem)
    rw [hx]
    simp
    omega

/-- C4 (amended): when the configured search is empty and the threshold-0
rerun has at least 5 entries, the fallback sets the new threshold to
max(0, fifth-highest score - 0.01) - clamped at 0, not always equal to the
fifth-highest score minus 0.01 - returns exactly the entries reaching that
new threshold, of which there are at least 5, and reports the new
threshold. -/
theorem adaptive_threshold_at_least_five {Img : Type} (enc : Encoder Img)
    (e : ImageSearchEngine) (st : SearchType) (sp : Path) (qt : String)
    (all : List (Path × ℚ))
    (h0 : perform_search enc e st sp qt none = Except.ok [])
    (h1 : perform_search enc e st sp qt (some 0) = Except.ok all)
    (h5 : 5 ≤ all.length) :
    adjust_threshold_and_search enc e st sp qt =
      Except.ok (all.filter (fun r =>
          max 0 ((sortByDesc id (all.map Prod.snd)).getD 4 0 - 1 / 100) ≤ r.2),
        max 0 ((sortByDesc id (all.map Prod.snd)).getD 4 0 - 1 / 100)) ∧
    5 ≤ (all.filter (fun r =>
          max 0 ((sortByDesc id (all.map Prod.snd)).getD 4 0 - 1 / 100) ≤ r.2)).length := by
  constructor
  · unfold adjust_threshold_and_search
    simp only [h1]
    rw [if_pos h5]
  · have hnn := perform_search_zero_nonneg enc e st sp qt all h1
    have hperm := perm_sortByDesc id (all.map Prod.snd)
    have hlen : 5 ≤ (sortByDesc id (all.map Prod.snd)).length := by
      rw [hperm.length_eq]
      simpa using h5
    have h4 : 4 < (sortByDesc id (all.map Prod.snd)).length := by omega
    have hfifth : (sortByDesc id (all.map Prod.snd)).getD 4 0 =
        (sortByDesc id (all.map Prod.snd)).get ⟨4, h4⟩ := List.getD_eq_get _ 0 h4
    have hmem : (sortByDesc id (all.map Prod.snd)).get ⟨4, h4⟩ ∈ all.map Prod.snd :=
      hperm.mem_iff.mp (List.get_mem _ 4 h4)
    have h0f : 0 ≤ (sortByDesc id (all.map Prod.snd)).get ⟨4, h4⟩ := by
      obtain ⟨⟨p2, s2⟩, hps, heq⟩ := List.mem_map.mp hmem
      exact heq ▸ hnn p2 s2 hps
    have hnt : max 0 ((sortByDesc id (all.map Prod.snd)).getD 4 0 - 1 / 100) ≤
        (sortByDesc id (all.map Prod.snd)).get ⟨4, h4⟩ := by
      rw [hfifth]
      apply max_le h0f
      linarith
    have hsorted : (sortByDesc id (all.map Prod.snd)).Pairwise (fun a b => b ≤ a) :=
      sorted_sortByDesc id (all.map Prod.snd)
    have hcount := countP_ge_of_sorted_desc
      (max 0 ((sortByDesc id (all.map Prod.snd)).getD 4 0 - 1 / 100))
      (sortByDesc id (all.map Prod.snd)) hsorted 4 h4 hnt
    rw [hperm.countP_eq] at hcount
    rw [List.countP_map] at hcount
    have hfl : (all.filter (fun r =>
        max 0 ((sortByDesc id (all.map Prod.snd)).getD 4 0 - 1 / 100) ≤ r.2)).length =
        all.countP (fun r => decide (max 0 ((sortByDesc id (all.map Prod.snd)).getD 4 0 - 1 / 100) ≤ r.2)) :=
      (List.countP_eq_length_filter _ _).symm
    rw [hfl]
    exact le_trans hcount (le_of_eq rfl)

/-- C5 (amended): when the configured search is empty and the threshold-0
rerun has fewer than 5 entries, the fallback returns exactly the rerun's
entries - all of which have non-negative score, so indexed images with
negative similarity are not among them - with reported threshold 0. -/
theorem adaptive_fallback_fewer_than_five {Img : Type} (enc : Encoder Img)
    (e : ImageSearchEngine) (st : SearchType) (sp : Path) (qt : String)
    (all : List (Path × ℚ))
    (h0 : perform_search enc e st sp qt none = Except.ok [])
    (h1 : perform_search enc e st sp qt (some 0) = Except.ok all)
    (h5 : all.length < 5) :
    adjust_threshold_and_search enc e st sp qt = Except.ok (all, 0) ∧
    ∀ p s, (p, s) ∈ all → 0 ≤ s := by
  constructor
  · unfold adjust_threshold_and_search
    simp only [h1]
    rw [if_neg (by omega)]
  · exact perform_search_zero_nonneg enc e st sp qt all h1

/-- Engine with five indexed vectors [1/200] and configured threshold 0.5,
so every similarity is 0.005: positive, but below 0.01. -/
def E4 : ImageSearchEngine :=
  ⟨[("a", [1 / 200]), ("b", [1 / 200]), ("c", [1 / 200]), ("d", [1 / 200]),
    ("e", [1 / 200])], none, 1 / 2⟩

/-- Encoder that encodes every query to the unit vector [1]. -/
def enc4 : Encoder Unit :=
  ⟨fun _ => some (), fun _ => some [1], fun _ => some [1]⟩

/-- The threshold-0 text-search results against E4. -/
def R4 : List (Path × ℚ) :=
  [("a", 1 / 200), ("b", 1 / 200), ("c", 1 / 200), ("d", 1 / 200), ("e", 1 / 200)]

/-- C4 counterexample: with a fifth-highest score of 0.005 the code clamps
the new threshold to max(0, 0.005 - 0.01) = 0 and reports 0, not the claimed
fifth-highest score minus 0.01, which is negative. -/
theorem adaptive_threshold_clamp_counterexample :
    perform_search enc4 E4 SearchType.text "s.png" "q" none = Except.ok [] ∧
    perform_search enc4 E4 SearchType.text "s.png" "q" (some 0) = Except.ok R4 ∧
    (sortByDesc id (R4.map Prod.snd)).getD 4 0 = 1 / 200 ∧
    adjust_threshold_and_search enc4 E4 SearchType.text "s.png" "q" =
      Except.ok (R4, 0) ∧
    (0 : ℚ) ≠ 1 / 200 - 1 / 100 := by
  have hmax : max (0 : ℚ) (1 / 200 - 1 / 100) = 0 := by
    rw [max_eq_left]
    norm_num
  refine ⟨?_, ?_, ?_, ?_, by norm_num⟩
  · norm_num [perform_search, search_by_text, enc4, E4, calculate_similarities,
      dot, sortByDesc, insertByDesc]
  · norm_num [perform_search, search_by_text, enc4, E4, R4,
      calculate_similarities, dot, sortByDesc, insertByDesc]
  · norm_num [R4, sortByDesc, insertByDesc]
  · norm_num [adjust_threshold_and_search, perform_search, search_by_text,
      enc4, E4, R4, calculate_similarities, dot, sortByDesc, insertByDesc, hmax]

/-- C4 witness: the amended theorem at the clamping inputs. -/
theorem adaptive_threshold_at_least_five_witness :
    adjust_threshold_and_search enc4 E4 SearchType.text "s.png" "q" =
      Except.ok (R4.filter (fun r =>
          max 0 ((sortByDesc id (R4.map Prod.snd)).getD 4 0 - 1 / 100) ≤ r.2),
        max 0 ((sortByDesc id (R4.map Prod.snd)).getD 4 0 - 1 / 100)) ∧
    5 ≤ (R4.filter (fun r =>
          max 0 ((sortByDesc id (R4.map Prod.snd)).getD 4 0 - 1 / 100) ≤ r.2)).length :=
  adaptive_threshold_at_least_five enc4 E4 SearchType.text "s.png" "q" R4
    (by norm_num [perform_search, search_by_text, enc4, E4,
      calculate_similarities, dot, sortByDesc, insertByDesc])
    (by norm_num [perform_search, search_by_text, enc4, E4, R4,
      calculate_similarities, dot, sortByDesc, insertByDesc])
    (by norm_num [R4])

/-- Engine with one indexed image and configured threshold 0.5. -/
def E5 : ImageSearchEngine := ⟨[("a", [1])], none, 1 / 2⟩

/-- Encoder that encodes every query to [-1/10], giving the one indexed
image a negative similarity. -/
def enc5 : Encoder Unit :=
  ⟨fun _ => some (), fun _ => some [-1 / 10], fun _ => some [-1 / 10]⟩

/-- C5 counterexample: the image "a" is indexed but has negative similarity,
so the threshold-0 rerun is empty and the fallback returns no results at
all, not all indexed images regardless of score. -/
theorem adaptive_fallback_counterexample :
    perform_search enc5 E5 SearchType.text "s.png" "q" none = Except.ok [] ∧
    get_indexed_images E5 = ["a"] ∧
    adjust_threshold_and_search enc5 E5 SearchType.text "s.png" "q" =
      Except.ok ([], 0) := by
  refine ⟨?_, rfl, ?_⟩
  · norm_num [perform_search, search_by_text, enc5, E5, calculate_similarities,
      dot, sortByDesc, insertByDesc]
  · norm_num [adjust_threshold_and_search, perform_search, search_by_text,
      enc5, E5, calculate_similarities, dot, sortByDesc, insertByDesc]

/-- C5 witness: the amended theorem at the negative-similarity inputs. -/
theorem adaptive_fallback_fewer_than_five_witness :
    adjust_threshold_and_search enc5 E5 SearchType.text "s.png" "q" =
      Except.ok ([], 0) :=
  (adaptive_fallback_fewer_than_five enc5 E5 SearchType.text "s.png" "q" []
    (by norm_num [perform_search, search_by_text, enc5, E5,
      calculate_similarities, dot, sortByDesc, insertByDesc])
    (by norm_num [perform_search, search_by_text, enc5, E5,
      calculate_similarities, dot, sortByDesc, insertByDesc])
    (by norm_num)).1

/-- Assigning a key not yet present appends the binding. -/
theorem dictInsert_fresh {β : Type} (m : List (Path × β)) (k : Path) (v : β)
    (h : k ∉ m.map Prod.fst) : dictInsert m k v = m ++ [(k, v)] := by
  unfold dictInsert
  rw [if_neg]
  intro hc
  rw [List.any_eq_true] at hc
  obtain ⟨kv, hkv, heq⟩ := hc
  exact h (List.mem_map.mpr ⟨kv, hkv, by simpa using heq⟩)

/-- Rebuilding the feature dict from vector entries recovers it exactly. -/
theorem vecsOf_map_vec (l : List (Path × Vec)) :
    vecsOf (l.map (fun pf => (pf.1, CacheEntry.vec pf.2))) = some l := by
  induction l with
  | nil => rfl
  | cons pf rest ih =>
    simp only [List.map_cons]
    unfold vecsOf
    rw [ih]
    rfl

/-- C6 (amended): provided no indexed path equals the reserved key
folder_path - true of every index the program builds, since indexed paths
end in a supported image extension - loading the snapshot produced by
get_cache into any engine reconstructs exactly the original path set and
vectors and restores the dumped folder path. -/
theorem cache_round_trip (e f : ImageSearchEngine)
    (h : "folder_path" ∉ e.image_features.map Prod.fst) :
    load_cache f (get_cache e) =
      some { f with image_features := e.image_features,
                    image_dir := e.image_dir } := by
  have hfresh : "folder_path" ∉
      (e.image_features.map (fun pf => (pf.1, CacheEntry.vec pf.2))).map Prod.fst := by
    simpa [List.map_map, Function.comp] using h
  have hgc : get_cache e =
      e.image_features.map (fun pf => (pf.1, CacheEntry.vec pf.2)) ++
        [("folder_path", CacheEntry.dir e.image_dir)] :=
    dictInsert_fresh _ _ _ hfresh
  have hnone : (e.image_features.map (fun pf => (pf.1, CacheEntry.vec pf.2))).find?
      (fun kv => kv.1 == "folder_path") = none := by
    rw [List.find?_eq_none]
    intro kv hkv
    simp only [beq_eq_false_iff_ne, ne_eq, beq_iff_eq]
    intro heq
    exact hfresh (List.mem_map.mpr ⟨kv, hkv, heq⟩)
  have hlook : cache_lookup (get_cache e) "folder_path" =
      some (CacheEntry.dir e.image_dir) := by
    rw [hgc]
    unfold cache_lookup
    rw [List.find?_append, hnone]
    rfl
  have herase : dictErase (get_cache e) "folder_path" =
      e.image_features.map (fun pf => (pf.1, CacheEntry.vec pf.2)) := by
    rw [hgc]
    unfold dictErase
    rw [List.filter_append]
    have h1 : (e.image_features.map (fun pf => (pf.1, CacheEntry.vec pf.2))).filter
        (fun kv => !(kv.1 == "folder_path")) =
        e.image_features.map (fun pf => (pf.1, CacheEntry.vec pf.2)) := by
      rw [List.filter_eq_self]
      intro kv hkv
      simp only [Bool.not_eq_true', beq_eq_false_iff_ne, ne_eq]
      intro heq
      exact hfresh (List.mem_map.mpr ⟨kv, hkv, heq⟩)
    rw [h1]
    simp
  unfold load_cache load_cache_step1
  rw [hlook]
  simp only [entryDir]
  rw [herase, vecsOf_map_vec]
  rfl

/-- Engine whose one indexed record uses the reserved key as its path. -/
def E6 : ImageSearchEngine := ⟨[("folder_path", [1])], some "dir", 0⟩

/-- C6 counterexample: an index whose one path is the literal folder_path is
destroyed by the round trip: get_cache overwrites the record with the folder
string and load_cache consumes the key, leaving an empty path set. -/
theorem cache_round_trip_counterexample :
    get_indexed_images E6 = ["folder_path"] ∧
    (load_cache E6 (get_cache E6)).map get_indexed_images = some [] ∧
    (["folder_path"] : List Path) ≠ [] := by
  refine ⟨rfl, rfl, by simp⟩

/-- C6 witness: the round-trip theorem at a one-record engine, loading into
a fresh engine. -/
theorem cache_round_trip_witness :
    load_cache E0 (get_cache E1) =
      some { E0 with image_features := E1.image_features,
                     image_dir := E1.image_dir } :=
  cache_round_trip E1 E0 (by decide)

/-- A mapM over Option of a pointwise-successful function returns some list
of the same length. -/
theorem mapM_isSome_length {Img : Type} (f : Img → Option Vec)
    (hf : ∀ i, (f i).isSome) :
    ∀ l : List Img, ∃ out, l.mapM f = some out ∧ out.length = l.length
  | [] => ⟨[], rfl, rfl⟩
  | i :: rest => by
    obtain ⟨out, hout, hlen⟩ := mapM_isSome_length f hf rest
    obtain ⟨v, hv⟩ := Option.isSome_iff_exists.mp (hf i)
    refine ⟨v :: out, ?_, by simp [hlen]⟩
    rw [← List.mapM'_eq_mapM] at hout ⊢
    unfold List.mapM'
    rw [hv, hout]
    rfl

/-- Decoded images and valid paths of a batch have the same length. -/
theorem decoded_length_eq_valid {Img : Type} (enc : Encoder Img) :
    ∀ ps : List Path,
      (decoded_images enc ps).length = (valid_paths enc ps).length
  | [] => rfl
  | p :: rest => by
    unfold decoded_images valid_paths
    unfold decoded_images valid_paths at decoded_length_eq_valid
    cases hd : enc.decode p with
    | none => simpa [List.filterMap_cons, hd] using decoded_length_eq_valid enc rest
    | some img => simpa [List.filterMap_cons, hd] using decoded_length_eq_valid enc rest

/-- Inserting pairwise-fresh, duplicate-free bindings appends them. -/
theorem insertAll_fresh :
    ∀ (pairs m : List (Path × Vec)),
      (∀ k ∈ pairs.map Prod.fst, k ∉ m.map Prod.fst) →
      (pairs.map Prod.fst).Nodup →
      insertAll m pairs = m ++ pairs
  | [], m, _, _ => by simp [insertAll]
  | (k, v) :: rest, m, hfresh, hnodup => by
    rw [List.map_cons, List.nodup_cons] at hnodup
    have hk : k ∉ m.map Prod.fst := hfresh k (by simp)
    have hfresh2 : ∀ k2 ∈ rest.map Prod.fst, k2 ∉ (m ++ [(k, v)]).map Prod.fst := by
      intro k2 hk2
      rw [List.map_append, List.mem_append]
      rintro (h1 | h2)
      · exact hfresh k2 (by simp [hk2]) h1
      · simp only [List.map_cons, List.map_nil, List.mem_singleton] at h2
        exact hnodup.1 (h2 ▸ hk2)
    have hrec := insertAll_fresh rest (m ++ [(k, v)]) hfresh2 hnodup.2
    unfold insertAll
    rw [List.foldl_cons]
    have : dictInsert m k v = m ++ [(k, v)] := dictInsert_fresh m k v hk
    rw [this]
    unfold insertAll at hrec
    rw [hrec]
    simp

/-- One batch under a fully-successful encoder: the feature keys gain
exactly the batch's valid paths, the warnings are its undecodable paths, and
the other fields are untouched. -/
theorem index_batch_spec {Img : Type} (enc : Encoder Img)
    (henc : ∀ i, (enc.encode_image i).isSome = true) (e : ImageSearchEngine)
    (ps : List Path)
    (hfresh : ∀ k ∈ valid_paths enc ps, k ∉ e.image_features.map Prod.fst)
    (hnodup : (valid_paths enc ps).Nodup) :
    ∃ e2, index_batch enc e ps = some (e2, decode_warnings enc ps) ∧
      e2.image_features.map Prod.fst =
        e.image_features.map Prod.fst ++ valid_paths enc ps ∧
      e2.image_dir = e.image_dir ∧
      e2.user_similarity_threshold = e.user_similarity_threshold := by
  by_cases hemp : (decoded_images enc ps).isEmpty = true
  · have hdec : decoded_images enc ps = [] := List.isEmpty_iff.mp hemp
    have hval : valid_paths enc ps = [] := by
      have := decoded_length_eq_valid enc ps
      rw [hdec] at this
      exact List.length_eq_zero.mp this.symm
    refine ⟨e, ?_, by simp [hval], rfl, rfl⟩
    unfold index_batch
    rw [if_pos hemp]
  · obtain ⟨out, hout, hlen⟩ :=
      mapM_isSome_length enc.encode_image henc (decoded_images enc ps)
    have hlenv : (valid_paths enc ps).length ≤ out.length := by
      rw [hlen, decoded_length_eq_valid enc ps]
    have hkeys : ((valid_paths enc ps).zip out).map Prod.fst = valid_paths enc ps :=
      List.map_fst_zip _ _ hlenv
    have hins : insertAll e.image_features ((valid_paths enc ps).zip out) =
        e.image_features ++ (valid_paths enc ps).zip out :=
      insertAll_fresh _ _ (by rw [hkeys]; exact hfresh) (by rw [hkeys]; exact hnodup)
    refine ⟨{ e with
                image_features :=
                  insertAll e.image_features ((valid_paths enc ps).zip out) },
      ?_, ?_, rfl, rfl⟩
    · unfold index_batch
      rw [if_neg hemp, hout]
    · rw [hins, List.map_append, hkeys]

/-- The batch loop under a fully-successful encoder: starting from features
whose keys avoid the remaining valid paths, it terminates with exactly the
valid paths appended to the keys and the undecodable paths appended to the
warnings. -/
theorem index_images_go_spec {Img : Type} (enc : Encoder Img)
    (henc : ∀ i, (enc.encode_image i).isSome = true) :
    ∀ (n : ℕ) (ps : List Path), ps.length ≤ n →
      ∀ (e : ImageSearchEngine) (ws : List Path),
      (∀ k ∈ valid_paths enc ps, k ∉ e.image_features.map Prod.fst) →
      (valid_paths enc ps).Nodup →
      ∃ e2, index_images_go enc e ws ps = some (e2, ws ++ decode_warnings enc ps) ∧
        e2.image_features.map Prod.fst =
          e.image_features.map Prod.fst ++ valid_paths enc ps ∧
        e2.image_dir = e.image_dir ∧
        e2.user_similarity_threshold = e.user_similarity_threshold := by
  intro n
  induction n with
  | zero =>
    intro ps hlen e ws _ _
    have hps : ps = [] := List.length_eq_zero.mp (Nat.le_zero.mp hlen)
    subst hps
    refine ⟨e, ?_, by simp [valid_paths], rfl, rfl⟩
    unfold index_images_go
    simp [decode_warnings]
  | succ n ih =>
    intro ps hlen e ws hfresh hnodup
    by_cases hps : ps.isEmpty = true
    · have hps2 : ps = [] := List.isEmpty_iff.mp hps
      subst hps2
      refine ⟨e, ?_, by simp [valid_paths], rfl, rfl⟩
      unfold index_images_go
      simp [decode_warnings]
    · have hsplit : ps.take 32 ++ ps.drop 32 = ps := List.take_append_drop 32 ps
      have hvsplit : valid_paths enc ps =
          valid_paths enc (ps.take 32) ++ valid_paths enc (ps.drop 32) := by
        unfold valid_paths
        rw [← List.filter_append, hsplit]
      have hwsplit : decode_warnings enc ps =
          decode_warnings enc (ps.take 32) ++ decode_warnings enc (ps.drop 32) := by
        unfold decode_warnings
        rw [← List.filter_append, hsplit]
      have hnodup2 := hvsplit ▸ hnodup
      have hfresh2 := hvsplit ▸ hfresh
      obtain ⟨e1, hbatch, hkeys1, hdir1, hthr1⟩ :=
        index_batch_spec enc henc e (ps.take 32)
          (fun k hk => hfresh2 k (List.mem_append_left _ hk))
          (List.Nodup.of_append_left hnodup2)
      have hfresh3 : ∀ k ∈ valid_paths enc (ps.drop 32),
          k ∉ e1.image_features.map Prod.fst := by
        intro k hk
        rw [hkeys1, List.mem_append]
        rintro (h1 | h2)
        · exact hfresh2 k (List.mem_append_right _ hk) h1
        · exact (List.disjoint_of_nodup_append hnodup2) h2 hk
      have hlen2 : (ps.drop 32).length ≤ n := by
        rw [List.length_drop]
        have hpos : 0 < ps.length := by
          cases ps with
          | nil => simp at hps
          | cons a l => simp
        omega
      obtain ⟨e2, hgo, hkeys2, hdir2, hthr2⟩ :=
        ih (ps.drop 32) hlen2 e1 (ws ++ decode_warnings enc (ps.take 32))
          hfresh3 (List.Nodup.of_append_right hnodup2)
      refine ⟨e2, ?_, ?_, by rw [hdir2, hdir1], by rw [hthr2, hthr1]⟩
      · unfold index_images_go
        rw [if_neg (by simp [hps]), hbatch]
        simp only [hgo, hwsplit, List.append_assoc]
      · rw [hkeys2, hkeys1, hvsplit, List.append_assoc]

/-- C7 (confirmed): indexing a folder holding one undecodable supported file
alongside N valid supported images (encoder succeeding on every decoded
image) completes - no batch or scan abort - with exactly N indexed records;
the corrupt path is absent, every valid path is present, and a warning is
recorded for the corrupt path. -/
theorem index_folder_skips_corrupt {Img : Type} (enc : Encoder Img)
    (e : ImageSearchEngine) (files : List Path) (c : Path)
    (henc : ∀ i, (enc.encode_image i).isSome = true)
    (hempty : e.image_features = [])
    (hnodup : files.Nodup)
    (hsupp : ∀ p ∈ files, supported_image p = true)
    (hc : c ∈ files) (hcbad : enc.decode c = none)
    (hgood : ∀ p ∈ files, p ≠ c → (enc.decode p).isSome = true) :
    ∃ e2 ws, index_images enc e files = some (e2, ws) ∧
      e2.image_features.length = files.length - 1 ∧
      c ∉ e2.image_features.map Prod.fst ∧
      (∀ p ∈ files, p ≠ c → p ∈ e2.image_features.map Prod.fst) ∧
      c ∈ ws := by
  have hfilter : files.filter supported_image = files := List.filter_eq_self.mpr hsupp
  have hvalid : valid_paths enc files = files.filter (fun p => p != c) := by
    unfold valid_paths
    apply List.filter_congr
    intro p hp
    by_cases hpc : p = c
    · subst hpc
      simp [hcbad]
    · simp [hgood p hp hpc, hpc]
  have herase : files.filter (fun p => p != c) = files.erase c :=
    (hnodup.erase_eq_filter c).symm
  obtain ⟨e2, hgo, hkeys, _, _⟩ := index_images_go_spec enc henc files.length
    files le_rfl e []
    (by intro k _; rw [hempty]; simp)
    (by rw [hvalid]; exact hnodup.filter _)
  have hkeys2 : e2.image_features.map Prod.fst = valid_paths enc files := by
    rw [hkeys, hempty]
    simp
  refine ⟨e2, [] ++ decode_warnings enc files, ?_, ?_, ?_, ?_, ?_⟩
  · unfold index_images
    rw [hfilter]
    exact hgo
  · have := congrArg List.length hkeys2
    rw [List.length_map] at this
    rw [this, hvalid, herase]
    exact List.length_erase_of_mem hc
  · rw [hkeys2, hvalid]
    intro hmem
    have := (List.mem_filter.mp hmem).2
    simp at this
  · intro p hp hpc
    rw [hkeys2, hvalid]
    rw [List.mem_filter]
    refine ⟨hp, by simp [hpc]⟩
  · rw [List.nil_append]
    unfold decode_warnings
    rw [List.mem_filter]
    refine ⟨hc, by simp [hcbad]⟩

/-- C7 witness: the theorem at a three-file folder whose middle file fails
to decode. -/
theorem index_folder_skips_corrupt_witness :
    ∃ e2 ws, index_images encIdx E0 ["a.png", "bad.png", "b.jpg"] = some (e2, ws) ∧
      e2.image_features.length = 2 ∧
      "bad.png" ∉ e2.image_features.map Prod.fst ∧
      ("a.png" ∈ e2.image_features.map Prod.fst ∧
        "b.jpg" ∈ e2.image_features.map Prod.fst) ∧
      "bad.png" ∈ ws := by
  obtain ⟨e2, ws, h1, h2, h3, h4, h5⟩ :=
    index_folder_skips_corrupt encIdx E0 ["a.png", "bad.png", "b.jpg"] "bad.png"
      (fun i => rfl) rfl (by decide) (by decide) (by decide) (by decide)
      (by decide)
  exact ⟨e2, ws, h1, by simpa using h2, h3,
    ⟨h4 "a.png" (by decide) (by decide), h4 "b.jpg" (by decide) (by decide)⟩, h5⟩

end ImageSearch
